import Mathlib

/-!
# Verification of the `books` library core (`library.go`)

Shallow embedding of the transactional import pipeline and the paginated
search-and-hydrate pipeline of `library.go`.

Modelling conventions:
* The SQLite store is a record of row lists, one per table, kept in insertion
  order, together with the next `rowid` for each table (SQLite `integer
  primary key` auto-assignment, observed via `LastInsertId`).
* Timestamp columns (`created_on` / `updated_on`) and the unused
  `template_override` column are never read by any of the embedded queries and
  are omitted from the row records.
* A SQL transaction is explicit state passing: the functions that run inside
  the transaction of `ImportBook` take and return a `Store`; `tx.Rollback()`
  is returning an error (the caller keeps the pre-transaction store),
  `tx.Commit()` is returning the updated store.
* FTS4 matching (`where books_fts match ?`) is external to the repository; the
  compiled query string is modelled as an opaque row predicate `q`.
* The filesystem is modelled as an existence oracle `ex : String → Bool`
  (for `os.Stat` probing) and, for the placement step of `ImportBook`, as a
  boolean telling whether `moveOrCopyFile` succeeds.
* Go `map[int64]...` values built by appending are association lists built in
  first-insertion order; Go's randomized map iteration order is determinized
  to that entry order (every property proved below is independent of it).
-/

namespace Books

/-- Go struct `BookFile` (fields as used throughout `library.go`:
`Id`, `Extension`, `OriginalFilename`, `CurrentFilename`, `FileSize`,
`FileMtime`, `Hash`, `RegexpName`, `Source`, `Tags`). -/
structure BookFile where
  Id : Int
  Extension : String
  OriginalFilename : String
  CurrentFilename : String
  FileSize : Int
  FileMtime : Int
  Hash : String
  RegexpName : String
  Source : String
  Tags : List String
  deriving Repr, DecidableEq

/-- Go struct `Book` (fields as used throughout `library.go`:
`Id`, `Authors`, `Series`, `Title`, `Files`). -/
structure Book where
  Id : Int
  Authors : List String
  Series : String
  Title : String
  Files : List BookFile
  deriving Repr, DecidableEq

/-- A row of the `books` table. -/
structure BookRow where
  id : Int
  series : String
  title : String
  deriving Repr, DecidableEq

/-- A row of the `files` table. -/
structure FileRow where
  id : Int
  book_id : Int
  extension : String
  original_filename : String
  filename : String
  file_size : Int
  file_mtime : Int
  hash : String
  regexp_name : String
  source : String
  deriving Repr, DecidableEq

/-- A row of the `authors` table. -/
structure AuthorRow where
  id : Int
  name : String
  deriving Repr, DecidableEq

/-- A row of the `books_authors` link table. -/
structure BookAuthorRow where
  id : Int
  book_id : Int
  author_id : Int
  deriving Repr, DecidableEq

/-- A row of the `tags` table. -/
structure TagRow where
  id : Int
  name : String
  deriving Repr, DecidableEq

/-- A row of the `files_tags` link table. -/
structure FileTagRow where
  id : Int
  file_id : Int
  tag_id : Int
  deriving Repr, DecidableEq

/-- A row of the `books_fts` FTS4 virtual table. The import-time insert never
sets the `filename` column, so it is empty for rows created by this core. -/
structure FtsRow where
  docid : Int
  author : String
  series : String
  title : String
  extension : String
  tags : String
  filename : String
  source : String
  deriving Repr, DecidableEq

/-- The SQLite database of a `Library`: one list of rows per table, in
insertion (rowid) order, plus the next rowid per table. -/
structure Store where
  books : List BookRow
  files : List FileRow
  authors : List AuthorRow
  books_authors : List BookAuthorRow
  tags : List TagRow
  files_tags : List FileTagRow
  books_fts : List FtsRow
  nextBookId : Int
  nextFileId : Int
  nextAuthorId : Int
  nextBookAuthorId : Int
  nextTagId : Int
  nextFileTagId : Int
  deriving Repr, DecidableEq

/-- The freshly created library (`CreateLibrary`): all tables empty, rowids
start at 1. -/
def Store.empty : Store :=
  { books := []
    files := []
    authors := []
    books_authors := []
    tags := []
    files_tags := []
    books_fts := []
    nextBookId := 1
    nextFileId := 1
    nextAuthorId := 1
    nextBookAuthorId := 1
    nextTagId := 1
    nextFileTagId := 1 }

/-- Insert into a sorted list (used to model SQL `ORDER BY` on a key;
structurally recursive so that concrete stores evaluate in the kernel). -/
def insertSortedBy {β : Type} (le : β → β → Bool) (x : β) : List β → List β
  | [] => [x]
  | y :: ys => if le x y then x :: y :: ys else y :: insertSortedBy le x ys

/-- SQL `ORDER BY` on a row list: sort by the given comparison. -/
def sortByKey {β : Type} (le : β → β → Bool) (l : List β) : List β :=
  l.foldr (insertSortedBy le) []

/-- One step of building a Go `map[int64][]α` by `m[k] = append(m[k], v)`,
on the association-list determinization. -/
def insertGrouped {α : Type} (m : List (Int × List α)) (k : Int) (v : α) :
    List (Int × List α) :=
  match m with
  | [] => [(k, [v])]
  | (k', vs) :: rest =>
      if k' == k then (k', vs ++ [v]) :: rest else (k', vs) :: insertGrouped rest k v

/-- Build the Go append-map from a list of scanned `(key, value)` rows. -/
def groupAppend {α : Type} (l : List (Int × α)) : List (Int × List α) :=
  l.foldl (fun m kv => insertGrouped m kv.1 kv.2) []

/-- Go map read `m[k]`: `none` when the key is absent. -/
def lookupG {α : Type} (m : List (Int × List α)) (k : Int) : Option (List α) :=
  (m.find? (fun p => p.1 == k)).map (fun p => p.2)

/-- `getAuthorsByBookIds`: `SELECT ba.book_id, a.name FROM books_authors ba
JOIN authors a ON ba.author_id = a.id WHERE ba.book_id IN (ids) ORDER BY ba.id`,
scanned into a map from book id to the author names in row order. -/
def getAuthorsByBookIds (s : Store) (ids : List Int) : List (Int × List String) :=
  let rows := sortByKey (fun a b => decide (a.id ≤ b.id))
      (s.books_authors.filter (fun ba => ba.book_id ∈ ids))
  let joined := rows.filterMap (fun ba =>
    (s.authors.find? (fun a => a.id == ba.author_id)).map (fun a => (ba.book_id, a.name)))
  groupAppend joined

/-- `getTagsByFileIds`: `SELECT ft.file_id, t.name FROM files_tags ft JOIN tags
t ON ft.tag_id = t.id WHERE ft.file_id IN (ids) ORDER BY ft.id`, scanned into a
map from file id to tag names in row order. -/
def getTagsByFileIds (s : Store) (ids : List Int) : List (Int × List String) :=
  let rows := sortByKey (fun a b => decide (a.id ≤ b.id))
      (s.files_tags.filter (fun ft => ft.file_id ∈ ids))
  let joined := rows.filterMap (fun ft =>
    (s.tags.find? (fun t => t.id == ft.tag_id)).map (fun t => (ft.file_id, t.name)))
  groupAppend joined

/-- `getFilesById`: fetch the tag map for `ids`, then
`select id, extension, original_filename, filename, file_size, file_mtime,
hash, regexp_name, source from files where id in (ids)` (rows in table order),
attaching each file's tags from the map (`nil` → `[]`). -/
def getFilesById (s : Store) (ids : List Int) : List BookFile :=
  if ids.isEmpty then []
  else
    let tagMap := getTagsByFileIds s ids
    (s.files.filter (fun f => f.id ∈ ids)).map (fun f =>
      ({ Id := f.id
         Extension := f.extension
         OriginalFilename := f.original_filename
         CurrentFilename := f.filename
         FileSize := f.file_size
         FileMtime := f.file_mtime
         Hash := f.hash
         RegexpName := f.regexp_name
         Source := f.source
         Tags := (lookupG tagMap f.id).getD [] } : BookFile))

/-- `getFilesByBookIds`: `select id, book_id from files where book_id in (ids)`
grouped into a map from book id to its file ids, then `getFilesById` per book. -/
def getFilesByBookIds (s : Store) (ids : List Int) : List (Int × List BookFile) :=
  let pairs := (s.files.filter (fun f => f.book_id ∈ ids)).map
      (fun f => (f.book_id, f.id))
  (groupAppend pairs).map (fun p => (p.1, getFilesById s p.2))

/-- `GetBooksById`: bulk-fetch book rows by id (table order), then attach the
author map and the file map entries for each book (`nil` → `[]`). -/
def GetBooksById (s : Store) (ids : List Int) : List Book :=
  if ids.isEmpty then []
  else
    let results := (s.books.filter (fun b => b.id ∈ ids)).map (fun b =>
      ({ Id := b.id
         Authors := []
         Series := b.series
         Title := b.title
         Files := [] } : Book))
    let authorMap := getAuthorsByBookIds s ids
    let fileMap := getFilesByBookIds s ids
    results.map (fun bk =>
      { bk with
        Authors := (lookupG authorMap bk.Id).getD []
        Files := (lookupG fileMap bk.Id).getD [] })

/-- The docids of `select docid from books_fts where books_fts match ?`, with
the FTS4 match semantics abstracted as the row predicate `q`. -/
def ftsMatchIds (s : Store) (q : FtsRow → Bool) : List Int :=
  (s.books_fts.filter q).map (fun d => d.docid)

/-- `SearchPaged`: when `limit == 0` fetch all matching docids, otherwise
`LIMIT limit+moreResultsLimit OFFSET offset`; report the surplus beyond
`limit` as `moreResults` and truncate; hydrate via `GetBooksById`. -/
def SearchPaged (s : Store) (q : FtsRow → Bool)
    (offset limit moreResultsLimit : Nat) : List Book × Nat :=
  let ids := if limit == 0 then ftsMatchIds s q
             else ((ftsMatchIds s q).drop offset).take (limit + moreResultsLimit)
  if limit > 0 ∧ ids.length > limit then
    (GetBooksById s (ids.take limit), ids.length - limit)
  else
    (GetBooksById s ids, 0)

/-- `Search`: the unpaged search, delegating to
`SearchPaged(terms, 0, 0, 0)` and dropping the `moreResults` count. -/
def Search (s : Store) (q : FtsRow → Bool) : List Book :=
  (SearchPaged s q 0 0 0).1

/-- Errors surfaced by the import pipeline (Go `error` values, with their
formatted-in data as fields; `errors.Wrap` context strings are dropped). -/
inductive LibError where
  | tooManyFiles : LibError
  | duplicate (id : Int) : LibError
  | ftsMissing (id : Int) : LibError
  | placementFailed : LibError
  deriving Repr, DecidableEq

/-- `getBookIdByTitleAndAuthors`: `SELECT id FROM books WHERE title = ?`, then
the author map for those ids, then return the first map entry whose author
name sequence equals `authors` element-for-element (Go `authorsEqual`). -/
def getBookIdByTitleAndAuthors (s : Store) (title : String)
    (authors : List String) : Option Int :=
  let ids := (s.books.filter (fun b => b.title == title)).map (fun b => b.id)
  let authorMap := getAuthorsByBookIds s ids
  (authorMap.find? (fun p => p.2 == authors)).map (fun p => p.1)

/-- `insertAuthor`: look the author up by name, insert it when absent, then
`insert or ignore` the `books_authors` link. -/
def insertAuthor (s : Store) (author : String) (bookId : Int) : Store :=
  let p : Int × Store :=
    match s.authors.find? (fun a => a.name == author) with
    | some a => (a.id, s)
    | none =>
        (s.nextAuthorId,
         { s with
           authors := s.authors ++ [⟨s.nextAuthorId, author⟩]
           nextAuthorId := s.nextAuthorId + 1 })
  let authorId := p.1
  let s := p.2
  if s.books_authors.any (fun ba => ba.book_id == bookId && ba.author_id == authorId) then s
  else { s with
         books_authors := s.books_authors ++ [⟨s.nextBookAuthorId, bookId, authorId⟩]
         nextBookAuthorId := s.nextBookAuthorId + 1 }

/-- `insertTag`: look the tag up by name, insert it when absent, then
`insert or ignore` the `files_tags` link. -/
def insertTag (s : Store) (tag : String) (fileId : Int) : Store :=
  let p : Int × Store :=
    match s.tags.find? (fun t => t.name == tag) with
    | some t => (t.id, s)
    | none =>
        (s.nextTagId,
         { s with
           tags := s.tags ++ [⟨s.nextTagId, tag⟩]
           nextTagId := s.nextTagId + 1 })
  let tagId := p.1
  let s := p.2
  if s.files_tags.any (fun ft => ft.file_id == fileId && ft.tag_id == tagId) then s
  else { s with
         files_tags := s.files_tags ++ [⟨s.nextFileTagId, fileId, tagId⟩]
         nextFileTagId := s.nextFileTagId + 1 }

/-- `indexBookInSearch`: for a new entry insert one `books_fts` document
(authors joined by `" & "`, the single file's extension / joined tags /
source; `filename` never set); otherwise fetch the existing document by docid
(absence is the fatal consistency error `ftsMissing`) and append the new
file's tags, extension and source, space-separated, to the existing fields. -/
def indexBookInSearch (s : Store) (book : Book) (createNew : Bool) :
    Except LibError Store :=
  match book.Files with
  | [bf] =>
    let joinedTags := String.intercalate " " bf.Tags
    if createNew then
      .ok { s with books_fts := s.books_fts ++
        [{ docid := book.Id
           author := String.intercalate " & " book.Authors
           series := book.Series
           title := book.Title
           extension := bf.Extension
           tags := joinedTags
           filename := ""
           source := bf.Source }] }
    else
      match s.books_fts.find? (fun d => d.docid == book.Id) with
      | none => .error (.ftsMissing book.Id)
      | some row =>
        .ok { s with books_fts := s.books_fts.map (fun d =>
          if d.docid == row.docid then
            { d with
              tags := row.tags ++ " " ++ joinedTags
              extension := row.extension ++ " " ++ bf.Extension
              source := row.source ++ " " ++ bf.Source }
          else d) }
  | _ => .error .tooManyFiles

/-- The store-transaction part of `ImportBook` (everything before the file
placement step): single-file guard, hash dedup check, identity resolution,
entry + author materialization for a new entry, file row insert, tag upsert,
and search-index maintenance. Any error aborts (rolls back) the transaction. -/
def importCore (lib : Store) (book : Book) : Except LibError Store :=
  match book.Files with
  | [bf] =>
    match lib.files.find? (fun f => f.hash == bf.Hash) with
    | some f => .error (.duplicate f.id)
    | none =>
      let t : Int × Store × Bool :=
        match getBookIdByTitleAndAuthors lib book.Title book.Authors with
        | some id => (id, lib, false)
        | none =>
          let id := lib.nextBookId
          let s := { lib with
            books := lib.books ++ [⟨id, book.Series, book.Title⟩]
            nextBookId := id + 1 }
          (id, book.Authors.foldl (fun s a => insertAuthor s a id) s, true)
      let bookId := t.1
      let s := t.2.1
      let isNew := t.2.2
      let fileId := s.nextFileId
      let s := { s with
        files := s.files ++
          [{ id := fileId
             book_id := bookId
             extension := bf.Extension
             original_filename := bf.OriginalFilename
             filename := bf.CurrentFilename
             file_size := bf.FileSize
             file_mtime := bf.FileMtime
             hash := bf.Hash
             regexp_name := bf.RegexpName
             source := bf.Source }]
        nextFileId := fileId + 1 }
      let s := bf.Tags.foldl (fun s tg => insertTag s tg fileId) s
      indexBookInSearch s { book with Id := bookId } isNew
  | _ => .error .tooManyFiles

/-- `ImportBook`: run the store transaction, then the filesystem placement
step (`moveOrCopyFile`, modelled by `placementOk`); a placement failure rolls
the transaction back; only after placement succeeds is the transaction
committed. -/
def ImportBook (lib : Store) (book : Book) (placementOk : Bool) :
    Except LibError Store :=
  match importCore lib book with
  | .error e => .error e
  | .ok s => if placementOk then .ok s else .error .placementFailed

/-- The library state after an `ImportBook` call: the committed store on
success, the unchanged pre-transaction store after a rollback. -/
def importResultStore (lib : Store) (book : Book) (placementOk : Bool) : Store :=
  match ImportBook lib book placementOk with
  | .ok s => s
  | .error _ => lib

/-- The author-name sequence recorded in the store for one entry: its
`books_authors` links in link-row order, joined to `authors`. -/
def entryAuthors (s : Store) (bookId : Int) : List String :=
  (s.books_authors.filter (fun ba => ba.book_id == bookId)).filterMap
    (fun ba => (s.authors.find? (fun a => a.id == ba.author_id)).map (fun a => a.name))

/-- The tag-name sequence recorded in the store for one file: its
`files_tags` links in link-row order, joined to `tags`. -/
def fileTags (s : Store) (fileId : Int) : List String :=
  (s.files_tags.filter (fun ft => ft.file_id == fileId)).filterMap
    (fun ft => (s.tags.find? (fun t => t.id == ft.tag_id)).map (fun t => t.name))

/-- Well-formedness of a store as produced by the schema and this core:
distinct book rowids, and link tables stored in ascending link-rowid order. -/
structure Store.WF (s : Store) : Prop where
  booksNodup : (s.books.map (fun b => b.id)).Nodup
  baSorted : s.books_authors.Pairwise (fun a b => a.id ≤ b.id)
  ftSorted : s.files_tags.Pairwise (fun a b => a.id ≤ b.id)

/-- The extension suffix of Go `path.Ext`, scanning the reversed character
list: everything from the final dot of the final slash-separated element. -/
def pathExtAux (acc : List Char) : List Char → List Char
  | [] => []
  | c :: rest =>
      if c = '/' then []
      else if c = '.' then c :: acc
      else pathExtAux (c :: acc) rest

/-- Go `path.Ext`: the suffix beginning at the final dot in the final
slash-separated element of the path; empty if there is no dot. -/
def pathExt (f : String) : String := String.mk (pathExtAux [] f.data.reverse)

/-- Go `strings.TrimSuffix`: remove the suffix when present. -/
def trimSuffix (s suffix : String) : String :=
  if suffix.data.isSuffixOf s.data then
    String.mk (s.data.take (s.data.length - suffix.data.length))
  else s

/-- The `i`-th disambiguated candidate name probed by `GetUniqueName`. -/
def candName (f : String) (i : Nat) : String :=
  trimSuffix f (pathExt f) ++ " (" ++ toString i ++ ")" ++ pathExt f

/-- The sequence of names `GetUniqueName` probes: the path itself, then the
numbered candidates. -/
def cand (f : String) : Nat → String
  | 0 => f
  | Nat.succ i => candName f (Nat.succ i)

/-- The probe loop of `GetUniqueName` (`for err == nil { ... }`), with
explicit fuel for the unbounded Go loop: while the current name exists,
move to the next numbered candidate. -/
def uniqueNameGo (ex : String → Bool) (f ext : String) :
    Nat → Nat → String → String
  | 0, _, newName => newName
  | Nat.succ fuel, i, newName =>
      if ex newName then
        uniqueNameGo ex f ext fuel (i + 1)
          (trimSuffix f ext ++ " (" ++ toString i ++ ")" ++ ext)
      else newName

/-- `GetUniqueName`: probe `f`, then `f (1)`, `f (2)`, ... (disambiguator
before the extension) until a name not present in the filesystem oracle `ex`
is found. -/
def GetUniqueName (ex : String → Bool) (fuel : Nat) (f : String) : String :=
  uniqueNameGo ex f (pathExt f) fuel 1 f

/-! ## Association-list (Go map) lemmas -/

/-- The keys of a grouping map, in entry order. -/
def keysOf {α : Type} (m : List (Int × List α)) : List Int := m.map (fun p => p.1)

theorem keysOf_insertGrouped {α : Type} (m : List (Int × List α)) (k : Int) (v : α) :
    keysOf (insertGrouped m k v) =
      if k ∈ keysOf m then keysOf m else keysOf m ++ [k] := by
  induction m with
  | nil => simp [insertGrouped, keysOf]
  | cons p rest ih =>
    obtain ⟨k', vs⟩ := p
    by_cases h : k' = k
    · subst h
      simp [insertGrouped, keysOf]
    · have hb : (k' == k) = false := by simp [h]
      have hk' : ¬(k = k') := fun he => h he.symm
      simp only [insertGrouped, hb, Bool.false_eq_true, if_false, keysOf, List.map_cons]
      have ih' : List.map (fun p : Int × List α => p.1) (insertGrouped rest k v) =
          if k ∈ keysOf rest then keysOf rest else keysOf rest ++ [k] := ih
      rw [ih']
      by_cases hk : k ∈ keysOf rest
      · simp only [keysOf] at hk
        simp [List.mem_cons, hk, hk', keysOf]
      · simp only [keysOf] at hk
        simp [List.mem_cons, hk, hk', keysOf]

theorem nodup_keysOf_insertGrouped {α : Type} (m : List (Int × List α)) (k : Int) (v : α)
    (h : (keysOf m).Nodup) : (keysOf (insertGrouped m k v)).Nodup := by
  rw [keysOf_insertGrouped]
  by_cases hk : k ∈ keysOf m
  · simpa [hk] using h
  · simp only [hk, if_false]
    rw [List.nodup_append]
    refine ⟨h, List.nodup_singleton k, ?_⟩
    intro a ha hb
    rw [List.mem_singleton] at hb
    subst hb
    exact hk ha

theorem lookupG_insertGrouped_same {α : Type} (m : List (Int × List α)) (k : Int) (v : α) :
    lookupG (insertGrouped m k v) k = some ((lookupG m k).getD [] ++ [v]) := by
  induction m with
  | nil => simp [insertGrouped, lookupG]
  | cons p rest ih =>
    obtain ⟨k', vs⟩ := p
    by_cases h : k' = k
    · subst h
      simp [insertGrouped, lookupG, List.find?]
    · have hb : (k' == k) = false := by simp [h]
      simp only [insertGrouped, hb, Bool.false_eq_true, if_false]
      simpa [lookupG, List.find?, hb] using ih

theorem lookupG_insertGrouped_other {α : Type} (m : List (Int × List α)) (k k' : Int) (v : α)
    (h : k' ≠ k) : lookupG (insertGrouped m k v) k' = lookupG m k' := by
  induction m with
  | nil =>
    have hb : (k == k') = false := by simp [Ne.symm h]
    simp [insertGrouped, lookupG, List.find?, hb]
  | cons p rest ih =>
    obtain ⟨k0, vs⟩ := p
    by_cases h0 : k0 = k
    · subst h0
      have hb : (k0 == k') = false := by simp [Ne.symm h]
      simp [insertGrouped, lookupG, List.find?, hb]
    · have hb : (k0 == k) = false := by simp [h0]
      simp only [insertGrouped, hb, Bool.false_eq_true, if_false]
      by_cases h1 : k0 = k'
      · subst h1
        simp [lookupG, List.find?]
      · have hb1 : (k0 == k') = false := by simp [h1]
        simpa [lookupG, List.find?, hb1] using ih

/-- The per-key contents of the Go append-map built by a fold, relative to an
arbitrary starting map. -/
theorem lookupG_foldl {α : Type} (l : List (Int × α)) :
    ∀ (m : List (Int × List α)) (k : Int),
      lookupG (l.foldl (fun m kv => insertGrouped m kv.1 kv.2) m) k =
        match lookupG m k with
        | some vs => some (vs ++ (l.filter (fun p => p.1 == k)).map (fun p => p.2))
        | none =>
            if (l.filter (fun p => p.1 == k)).isEmpty then none
            else some ((l.filter (fun p => p.1 == k)).map (fun p => p.2)) := by
  induction l with
  | nil =>
    intro m k
    cases h : lookupG m k <;> simp [h]
  | cons p rest ih =>
    intro m k
    obtain ⟨k0, v0⟩ := p
    by_cases h0 : k0 = k
    · subst h0
      rw [List.foldl_cons, ih (insertGrouped m k0 v0) k0, lookupG_insertGrouped_same]
      have hf : List.filter (fun p : Int × α => p.1 == k0) ((k0, v0) :: rest)
          = (k0, v0) :: List.filter (fun p : Int × α => p.1 == k0) rest := by
        simp [List.filter_cons]
      rw [hf]
      cases h : lookupG m k0 <;> simp [h]
    · have hb : (k0 == k) = false := by simp [h0]
      rw [List.foldl_cons, ih (insertGrouped m k0 v0) k,
          lookupG_insertGrouped_other m k0 k v0 (Ne.symm h0)]
      have hf : List.filter (fun p : Int × α => p.1 == k) ((k0, v0) :: rest)
          = List.filter (fun p : Int × α => p.1 == k) rest := by
        simp [List.filter_cons, hb]
      rw [hf]

/-- The per-key contents of the Go append-map. -/
theorem lookupG_groupAppend {α : Type} (l : List (Int × α)) (k : Int) :
    lookupG (groupAppend l) k =
      if (l.filter (fun p => p.1 == k)).isEmpty then none
      else some ((l.filter (fun p => p.1 == k)).map (fun p => p.2)) := by
  have := lookupG_foldl l [] k
  simpa [groupAppend, lookupG] using this

theorem nodup_keysOf_foldl {α : Type} (l : List (Int × α)) :
    ∀ (m : List (Int × List α)), (keysOf m).Nodup →
      (keysOf (l.foldl (fun m kv => insertGrouped m kv.1 kv.2) m)).Nodup := by
  induction l with
  | nil => intro m h; simpa using h
  | cons p rest ih =>
    intro m h
    exact ih (insertGrouped m p.1 p.2) (nodup_keysOf_insertGrouped m p.1 p.2 h)

theorem nodup_keysOf_groupAppend {α : Type} (l : List (Int × α)) :
    (keysOf (groupAppend l)).Nodup :=
  nodup_keysOf_foldl l [] (by simp [keysOf])

theorem lookupG_of_mem {α : Type} (m : List (Int × List α)) (p : Int × List α)
    (hN : (keysOf m).Nodup) (hp : p ∈ m) : lookupG m p.1 = some p.2 := by
  induction m with
  | nil => cases hp
  | cons q rest ih =>
    rcases List.mem_cons.mp hp with h | h
    · subst h
      simp [lookupG, List.find?]
    · have hq : q.1 ≠ p.1 := by
        intro he
        have : p.1 ∈ keysOf rest := List.mem_map.mpr ⟨p, h, rfl⟩
        rw [← he] at this
        exact (List.nodup_cons.mp hN).1 this
      have hb : (q.1 == p.1) = false := by simp [hq]
      have := ih (List.nodup_cons.mp hN).2 h
      simpa [lookupG, List.find?, hb] using this

theorem mem_of_lookupG {α : Type} (m : List (Int × List α)) (k : Int) (vs : List α)
    (h : lookupG m k = some vs) : (k, vs) ∈ m := by
  unfold lookupG at h
  cases hf : m.find? (fun p => p.1 == k) with
  | none => rw [hf] at h; cases h
  | some p =>
    rw [hf] at h
    have hm := List.mem_of_find?_eq_some hf
    have hk := List.find?_some hf
    have : p.1 = k := by simpa using hk
    obtain ⟨p1, p2⟩ := p
    simp at h this
    subst this
    subst h
    exact hm

/-- Every entry of the append-map holds exactly the values of its key, in
scan order, and is nonempty. -/
theorem mem_groupAppend_eq {α : Type} (l : List (Int × α)) (p : Int × List α)
    (hp : p ∈ groupAppend l) :
    p.2 = (l.filter (fun q => q.1 == p.1)).map (fun q => q.2) ∧ p.2 ≠ [] := by
  have h1 := lookupG_of_mem (groupAppend l) p (nodup_keysOf_groupAppend l) hp
  rw [lookupG_groupAppend] at h1
  by_cases he : (l.filter (fun q => q.1 == p.1)).isEmpty
  · rw [if_pos he] at h1; cases h1
  · rw [if_neg he] at h1
    have h2 : p.2 = (l.filter (fun q => q.1 == p.1)).map (fun q => q.2) := by
      injection h1 with h1; exact h1.symm
    refine ⟨h2, ?_⟩
    rw [h2]
    intro hc
    have : (l.filter (fun q => q.1 == p.1)) = [] := by
      cases hl : l.filter (fun q => q.1 == p.1) with
      | nil => rfl
      | cons a tl => rw [hl] at hc; cases hc
    simp [List.isEmpty_iff, this] at he

/-! ## ORDER BY and join lemmas -/

/-- `ORDER BY` on a list already stored in sorted order is the identity. -/
theorem sortByKey_of_pairwise {β : Type} (le : β → β → Bool) (l : List β)
    (h : l.Pairwise (fun a b => le a b = true)) : sortByKey le l = l := by
  induction l with
  | nil => rfl
  | cons x xs ih =>
    have hx := (List.pairwise_cons.mp h).1
    have hxs := (List.pairwise_cons.mp h).2
    have : sortByKey le (x :: xs) = insertSortedBy le x (sortByKey le xs) := rfl
    rw [this, ih hxs]
    cases xs with
    | nil => rfl
    | cons y ys =>
      have hy : le x y = true := hx y (List.mem_cons_self y ys)
      simp [insertSortedBy, hy]

/-- Restricting a keyed join, fetched for a set `ids` containing `k`, to the
rows with key `k` gives exactly the join fetched for `k` alone. -/
theorem filter_key_filterMap {β α : Type} (l : List β) (key : β → Int)
    (h : β → Option (Int × α)) (ids : List Int) (k : Int)
    (hkey : ∀ b p, h b = some p → p.1 = key b) (hk : k ∈ ids) :
    ((l.filter (fun b => key b ∈ ids)).filterMap h).filter
        (fun p => p.1 == k)
      = (l.filter (fun b => key b == k)).filterMap h := by
  induction l with
  | nil => simp
  | cons b rest ih =>
    by_cases hbk : key b = k
    · have h1 : key b ∈ ids := by rw [hbk]; exact hk
      have h2 : (key b == k) = true := by simp [hbk]
      cases hg : h b with
      | none => simp [List.filter_cons, List.filterMap_cons, h1, h2, hg, ih]
      | some p =>
        have hp1 : (p.1 == k) = true := by simp [hkey b p hg, hbk]
        simp [List.filter_cons, List.filterMap_cons, h1, h2, hg, hp1, ih]
    · have h2 : (key b == k) = false := by simp [hbk]
      by_cases h1 : key b ∈ ids
      · cases hg : h b with
        | none => simp [List.filter_cons, List.filterMap_cons, h1, h2, hg, ih]
        | some p =>
          have hp1 : (p.1 == k) = false := by simp [hkey b p hg, hbk]
          simp [List.filter_cons, List.filterMap_cons, h1, h2, hg, hp1, ih]
      · simp [List.filter_cons, List.filterMap_cons, h1, h2, ih]

/-- Keys appearing in a join restricted to `ids` are members of `ids`. -/
theorem fst_mem_ids_of_mem_join {β α : Type} (l : List β) (key : β → Int)
    (h : β → Option (Int × α)) (ids : List Int) (p : Int × α)
    (hkey : ∀ b p, h b = some p → p.1 = key b)
    (hp : p ∈ (l.filter (fun b => key b ∈ ids)).filterMap h) :
    p.1 ∈ ids := by
  rcases List.mem_filterMap.mp hp with ⟨b, hb, hgb⟩
  rcases List.mem_filter.mp hb with ⟨_, hcb⟩
  rw [hkey b p hgb]
  exact of_decide_eq_true hcb

/-- Map lookup on an association list whose values were transformed
pointwise. -/
theorem lookupG_map_values {α γ : Type} (m : List (Int × List α))
    (h : List α → List γ) (k : Int) :
    lookupG (m.map (fun p => (p.1, h p.2))) k = (lookupG m k).map h := by
  induction m with
  | nil => simp [lookupG]
  | cons p rest ih =>
    by_cases hk : p.1 = k
    · simp [lookupG, List.find?, hk]
    · have hb : (p.1 == k) = false := by simp [hk]
      simpa [lookupG, List.find?, hb] using ih

/-! ## Query characterizations under well-formedness -/

/-- The row function of the `books_authors ⋈ authors` join. -/
def authorJoinRow (s : Store) (ba : BookAuthorRow) : Option (Int × String) :=
  (s.authors.find? (fun a => a.id == ba.author_id)).map (fun a => (ba.book_id, a.name))

/-- The row function of the `files_tags ⋈ tags` join. -/
def tagJoinRow (s : Store) (ft : FileTagRow) : Option (Int × String) :=
  (s.tags.find? (fun t => t.id == ft.tag_id)).map (fun t => (ft.file_id, t.name))

theorem authorJoinRow_key (s : Store) : ∀ ba p, authorJoinRow s ba = some p →
    p.1 = ba.book_id := by
  intro ba p h
  unfold authorJoinRow at h
  cases hf : s.authors.find? (fun a => a.id == ba.author_id) with
  | none => rw [hf] at h; cases h
  | some a =>
    rw [hf] at h
    have : (ba.book_id, a.name) = p := by simpa using h
    rw [← this]

theorem tagJoinRow_key (s : Store) : ∀ ft p, tagJoinRow s ft = some p →
    p.1 = ft.file_id := by
  intro ft p h
  unfold tagJoinRow at h
  cases hf : s.tags.find? (fun t => t.id == ft.tag_id) with
  | none => rw [hf] at h; cases h
  | some t =>
    rw [hf] at h
    have : (ft.file_id, t.name) = p := by simpa using h
    rw [← this]

theorem getAuthorsByBookIds_eq (s : Store) (hWF : s.WF) (ids : List Int) :
    getAuthorsByBookIds s ids =
      groupAppend ((s.books_authors.filter
        (fun ba => ba.book_id ∈ ids)).filterMap (authorJoinRow s)) := by
  simp only [getAuthorsByBookIds]
  rw [sortByKey_of_pairwise _ _
    ((List.Pairwise.sublist (List.filter_sublist _) hWF.baSorted).imp
      (fun hab => decide_eq_true hab))]
  rfl

theorem getTagsByFileIds_eq (s : Store) (hWF : s.WF) (ids : List Int) :
    getTagsByFileIds s ids =
      groupAppend ((s.files_tags.filter
        (fun ft => ft.file_id ∈ ids)).filterMap (tagJoinRow s)) := by
  simp only [getTagsByFileIds]
  rw [sortByKey_of_pairwise _ _
    ((List.Pairwise.sublist (List.filter_sublist _) hWF.ftSorted).imp
      (fun hab => decide_eq_true hab))]
  rfl

theorem map_snd_filterMap_authorJoin (s : Store) (l : List BookAuthorRow) :
    (l.filterMap (authorJoinRow s)).map (fun p => p.2)
      = l.filterMap (fun ba =>
          (s.authors.find? (fun a => a.id == ba.author_id)).map (fun a => a.name)) := by
  rw [List.map_filterMap]
  congr 1
  funext ba
  unfold authorJoinRow
  cases s.authors.find? (fun a => a.id == ba.author_id) <;> rfl

theorem map_snd_filterMap_tagJoin (s : Store) (l : List FileTagRow) :
    (l.filterMap (tagJoinRow s)).map (fun p => p.2)
      = l.filterMap (fun ft =>
          (s.tags.find? (fun t => t.id == ft.tag_id)).map (fun t => t.name)) := by
  rw [List.map_filterMap]
  congr 1
  funext ft
  unfold tagJoinRow
  cases s.tags.find? (fun t => t.id == ft.tag_id) <;> rfl

/-- The hydrated author list of a book in the fetched id set is its recorded
author sequence. -/
theorem lookupG_getAuthorsByBookIds (s : Store) (hWF : s.WF) (ids : List Int)
    (k : Int) (hk : k ∈ ids) :
    (lookupG (getAuthorsByBookIds s ids) k).getD [] = entryAuthors s k := by
  rw [getAuthorsByBookIds_eq s hWF, lookupG_groupAppend,
      filter_key_filterMap s.books_authors (fun ba => ba.book_id) (authorJoinRow s)
        ids k (authorJoinRow_key s) hk]
  by_cases he : ((s.books_authors.filter (fun ba => ba.book_id == k)).filterMap
      (authorJoinRow s)).isEmpty
  · rw [if_pos he]
    have : (s.books_authors.filter (fun ba => ba.book_id == k)).filterMap
        (authorJoinRow s) = [] := List.isEmpty_iff.mp he
    unfold entryAuthors
    rw [← map_snd_filterMap_authorJoin, this]
    rfl
  · rw [if_neg he, map_snd_filterMap_authorJoin]
    rfl

/-- The hydrated tag list of a file in the fetched id set is its recorded tag
sequence. -/
theorem lookupG_getTagsByFileIds (s : Store) (hWF : s.WF) (ids : List Int)
    (k : Int) (hk : k ∈ ids) :
    (lookupG (getTagsByFileIds s ids) k).getD [] = fileTags s k := by
  rw [getTagsByFileIds_eq s hWF, lookupG_groupAppend,
      filter_key_filterMap s.files_tags (fun ft => ft.file_id) (tagJoinRow s)
        ids k (tagJoinRow_key s) hk]
  by_cases he : ((s.files_tags.filter (fun ft => ft.file_id == k)).filterMap
      (tagJoinRow s)).isEmpty
  · rw [if_pos he]
    have : (s.files_tags.filter (fun ft => ft.file_id == k)).filterMap
        (tagJoinRow s) = [] := List.isEmpty_iff.mp he
    unfold fileTags
    rw [← map_snd_filterMap_tagJoin, this]
    rfl
  · rw [if_neg he, map_snd_filterMap_tagJoin]
    rfl

/-! ## `books_fts` preservation by the upsert helpers -/

theorem books_fts_insertTag (s : Store) (t : String) (fid : Int) :
    (insertTag s t fid).books_fts = s.books_fts := by
  unfold insertTag
  cases h : s.tags.find? (fun tg => tg.name == t) <;> simp [h] <;> split <;> rfl

theorem books_fts_foldl_insertTag (s : Store) (tags : List String) (fid : Int) :
    (tags.foldl (fun s tg => insertTag s tg fid) s).books_fts = s.books_fts := by
  induction tags generalizing s with
  | nil => rfl
  | cons t rest ih => rw [List.foldl_cons, ih, books_fts_insertTag]

theorem books_fts_insertAuthor (s : Store) (a : String) (bid : Int) :
    (insertAuthor s a bid).books_fts = s.books_fts := by
  unfold insertAuthor
  cases h : s.authors.find? (fun au => au.name == a) <;> simp [h] <;> split <;> rfl

theorem books_fts_foldl_insertAuthor (s : Store) (as : List String) (bid : Int) :
    (as.foldl (fun s a => insertAuthor s a bid) s).books_fts = s.books_fts := by
  induction as generalizing s with
  | nil => rfl
  | cons a rest ih => rw [List.foldl_cons, ih, books_fts_insertAuthor]

/-! ## Concrete fixtures used by witnesses and counterexamples -/

/-- A concrete import payload: an epub file with two tags. -/
def wFile1 : BookFile :=
  ⟨0, "epub", "in/one.epub", "books/one.epub", 10, 0, "hashA", "rx", "srcA",
    ["alpha", "beta"]⟩

/-- A concrete import payload: a mobi file with two tags, distinct hash. -/
def wFile2 : BookFile :=
  ⟨0, "mobi", "in/two.mobi", "books/two.mobi", 11, 0, "hashB", "rx", "srcB",
    ["beta", "gamma"]⟩

/-- A concrete file whose hash collides with `wFile1`. -/
def wFileDup : BookFile :=
  ⟨0, "epub", "in/dup.epub", "books/dup.epub", 12, 0, "hashA", "rx", "srcC", []⟩

/-- Title "Twin Suns" by [Ann, Zed]. -/
def wBook1 : Book := ⟨0, ["Ann", "Zed"], "", "Twin Suns", [wFile1]⟩

/-- Same title, same authors in the opposite order. -/
def wBook2 : Book := ⟨0, ["Zed", "Ann"], "", "Twin Suns", [wFile2]⟩

/-- Same title, identical ordered author list, second file. -/
def wBook3 : Book := ⟨0, ["Ann", "Zed"], "", "Twin Suns", [wFile2]⟩

/-- A book whose only file duplicates `wFile1`'s hash. -/
def wBookDup : Book := ⟨0, ["New"], "", "Other", [wFileDup]⟩

/-- A book carrying two files (malformed for this core). -/
def wBookTwoFiles : Book := ⟨0, ["Ann"], "", "Pair", [wFile1, wFile2]⟩

/-- The library after importing `wBook1` into an empty library. -/
def wStore1 : Store := importResultStore Store.empty wBook1 true

/-- The search document created for `wBook1`. -/
def wRow : FtsRow :=
  ⟨1, "Ann & Zed", "", "Twin Suns", "epub", "alpha beta", "", "srcA"⟩

/-- The entry of `wStore1` re-presented for indexing its second file. -/
def wIndexBook : Book := ⟨1, ["Ann", "Zed"], "", "Twin Suns", [wFile2]⟩

/-- A store holding an entry (with an author) but no search document. -/
def wStoreNoFts : Store :=
  { Store.empty with
    books := [⟨1, "", "Ghost"⟩]
    authors := [⟨1, "Ann"⟩]
    books_authors := [⟨1, 1, 1⟩]
    nextBookId := 2
    nextAuthorId := 2
    nextBookAuthorId := 2 }

/-- An import of a second file for the `Ghost` entry. -/
def wBookGhost : Book := ⟨0, ["Ann"], "", "Ghost", [wFile2]⟩

/-! ## Claim theorems -/

/-- C10: For every search-terms string (modelled as its compiled FTS match
predicate) and every store state, `Search` returns exactly the book list
produced by `SearchPaged` with offset, limit and `moreResultsCap` all zero,
which in turn hydrates all matching identifiers. -/
theorem search_is_searchPaged_zero (s : Store) (q : FtsRow → Bool) :
    Search s q = (SearchPaged s q 0 0 0).1 ∧
    Search s q = GetBooksById s (ftsMatchIds s q) := by
  refine ⟨rfl, ?_⟩
  unfold Search SearchPaged
  simp

/-- C8: An import request carrying anything but exactly one file is rejected
with the malformed-input error before any store write: the resulting library
state is the untouched input store. -/
theorem importBook_rejects_non_single_file (lib : Store) (book : Book)
    (p : Bool) (h : book.Files.length ≠ 1) :
    ImportBook lib book p = .error .tooManyFiles ∧
    importResultStore lib book p = lib := by
  have hcore : importCore lib book = .error .tooManyFiles := by
    unfold importCore
    cases hf : book.Files with
    | nil => rfl
    | cons bf rest =>
      cases rest with
      | nil =>
        exfalso
        apply h
        rw [hf]
        rfl
      | cons c t => rfl
  have h1 : ImportBook lib book p = .error .tooManyFiles := by
    unfold ImportBook
    rw [hcore]
  refine ⟨h1, ?_⟩
  unfold importResultStore
  rw [h1]

/-- Witness for C8 at a concrete two-file request. -/
theorem importBook_rejects_non_single_file_witness :
    ImportBook Store.empty wBookTwoFiles true = .error .tooManyFiles ∧
    importResultStore Store.empty wBookTwoFiles true = Store.empty :=
  importBook_rejects_non_single_file Store.empty wBookTwoFiles true (by decide)

/-- C6: If every store step of an import succeeds but file placement fails,
`ImportBook` reports the placement error and rolls the transaction back,
leaving the store exactly as it was before the import began. -/
theorem importBook_placement_failure_rolls_back (lib : Store) (book : Book)
    (s : Store) (h : importCore lib book = .ok s) :
    ImportBook lib book false = .error .placementFailed ∧
    importResultStore lib book false = lib := by
  have h1 : ImportBook lib book false = .error .placementFailed := by
    unfold ImportBook
    rw [h]
    rfl
  refine ⟨h1, ?_⟩
  unfold importResultStore
  rw [h1]

/-- Witness for C6: importing `wBook1` into the empty library succeeds on the
store side, and with failing placement the library is left empty. -/
theorem importBook_placement_failure_rolls_back_witness :
    ImportBook Store.empty wBook1 false = .error .placementFailed ∧
    importResultStore Store.empty wBook1 false = Store.empty :=
  importBook_placement_failure_rolls_back Store.empty wBook1 wStore1 rfl

/-- C1: Importing a file whose content hash already exists in the store fails
with the duplicate error carrying the conflicting file's identifier, and the
store is left unchanged. -/
theorem importBook_duplicate_hash_fails (lib : Store) (book : Book)
    (bf : BookFile) (p : Bool) (hf : book.Files = [bf])
    (hdup : ∃ f ∈ lib.files, f.hash = bf.Hash) :
    ∃ f0 ∈ lib.files, f0.hash = bf.Hash ∧
      ImportBook lib book p = .error (.duplicate f0.id) ∧
      importResultStore lib book p = lib := by
  have hsome : (lib.files.find? (fun f => f.hash == bf.Hash)).isSome := by
    rw [List.find?_isSome]
    rcases hdup with ⟨f, hmem, hh⟩
    exact ⟨f, hmem, by simp [hh]⟩
  cases hfind : lib.files.find? (fun f => f.hash == bf.Hash) with
  | none => rw [hfind] at hsome; cases hsome
  | some f0 =>
    have hmem := List.mem_of_find?_eq_some hfind
    have hhash : f0.hash = bf.Hash := by
      have := List.find?_some hfind
      simpa using this
    have h1 : ImportBook lib book p = .error (.duplicate f0.id) := by
      unfold ImportBook importCore
      rw [hf]
      simp only [List.cons.injEq]
      rw [hfind]
    refine ⟨f0, hmem, hhash, h1, ?_⟩
    unfold importResultStore
    rw [h1]

/-- Witness for C1: re-importing content with hash `"hashA"` into the library
already holding `wFile1` fails with the duplicate error for file 1 and leaves
the store unchanged. -/
theorem importBook_duplicate_hash_fails_witness :
    ∃ f0 ∈ wStore1.files, f0.hash = wFileDup.Hash ∧
      ImportBook wStore1 wBookDup true = .error (.duplicate f0.id) ∧
      importResultStore wStore1 wBookDup true = wStore1 :=
  importBook_duplicate_hash_fails wStore1 wBookDup wFileDup true (by decide)
    (by decide)

/-- A missing search document for an entry that should already have one is
the fatal consistency error. -/
theorem indexBookInSearch_missing_doc (s : Store) (book : Book) (bf : BookFile)
    (hf : book.Files = [bf])
    (hmiss : s.books_fts.find? (fun d => d.docid == book.Id) = none) :
    indexBookInSearch s book false = .error (.ftsMissing book.Id) := by
  unfold indexBookInSearch
  rw [hf]
  simp only []
  rw [hmiss]
  rfl

/-- C4: Indexing a new entry inserts one search document keyed by the entry
id, with authors joined by " & " and the single file's extension, joined
tags, and source as initial fields; indexing an existing entry appends the
new file's tags, extension and source, space-separated without deduplication,
to the entry's existing document. -/
theorem indexBookInSearch_spec :
    (∀ (s : Store) (book : Book) (bf : BookFile), book.Files = [bf] →
       indexBookInSearch s book true = .ok { s with books_fts := s.books_fts ++
         [⟨book.Id, String.intercalate " & " book.Authors, book.Series,
           book.Title, bf.Extension, String.intercalate " " bf.Tags, "",
           bf.Source⟩] }) ∧
    (∀ (s : Store) (book : Book) (bf : BookFile) (row : FtsRow),
       book.Files = [bf] →
       s.books_fts.find? (fun d => d.docid == book.Id) = some row →
       ∃ s2, indexBookInSearch s book false = .ok s2 ∧
         s2.books_fts.find? (fun d => d.docid == book.Id) = some
           { row with tags := row.tags ++ " " ++ String.intercalate " " bf.Tags
                      extension := row.extension ++ " " ++ bf.Extension
                      source := row.source ++ " " ++ bf.Source }) := by
  constructor
  · intro s book bf hf
    unfold indexBookInSearch
    rw [hf]
    rfl
  · intro s book bf row hf hfind
    have hdoc : row.docid = book.Id := by
      have := List.find?_some hfind
      simpa using this
    have h1 : indexBookInSearch s book false = .ok { s with
        books_fts := s.books_fts.map (fun d =>
          if d.docid == row.docid then
            { d with tags := row.tags ++ " " ++ String.intercalate " " bf.Tags
                     extension := row.extension ++ " " ++ bf.Extension
                     source := row.source ++ " " ++ bf.Source }
          else d) } := by
      unfold indexBookInSearch
      rw [hf]
      simp only []
      rw [hfind]
      rfl
    refine ⟨_, h1, ?_⟩
    rw [List.find?_map]
    have hpred : ((fun d : FtsRow => d.docid == book.Id) ∘ (fun d =>
        if d.docid == row.docid then
          { d with tags := row.tags ++ " " ++ String.intercalate " " bf.Tags
                   extension := row.extension ++ " " ++ bf.Extension
                   source := row.source ++ " " ++ bf.Source }
        else d)) = (fun d : FtsRow => d.docid == book.Id) := by
      funext d
      by_cases hd : d.docid == row.docid
      · simp [Function.comp, hd]
      · simp [Function.comp, hd]
    rw [hpred, hfind]
    simp

/-- Witness for C4: indexing the fresh `wBook1` and then the second file of
the same entry in `wStore1`. -/
theorem indexBookInSearch_spec_witness :
    indexBookInSearch Store.empty wBook1 true = .ok { Store.empty with
      books_fts := [⟨wBook1.Id, String.intercalate " & " wBook1.Authors,
        wBook1.Series, wBook1.Title, wFile1.Extension,
        String.intercalate " " wFile1.Tags, "", wFile1.Source⟩] } ∧
    (∃ s2, indexBookInSearch wStore1 wIndexBook false = .ok s2 ∧
      s2.books_fts.find? (fun d => d.docid == wIndexBook.Id) = some
        { wRow with tags := wRow.tags ++ " " ++ String.intercalate " " wFile2.Tags
                    extension := wRow.extension ++ " " ++ wFile2.Extension
                    source := wRow.source ++ " " ++ wFile2.Source }) :=
  ⟨indexBookInSearch_spec.1 Store.empty wBook1 wFile1 rfl,
   indexBookInSearch_spec.2 wStore1 wIndexBook wFile2 wRow rfl (by decide)⟩

/-- C5: Search-index maintenance failures propagate: a missing document for
an entry known to exist is the consistency error, and inside `ImportBook`
this error aborts and rolls back the whole import transaction. -/
theorem index_maintenance_error_propagation :
    (∀ (s : Store) (book : Book) (bf : BookFile), book.Files = [bf] →
       s.books_fts.find? (fun d => d.docid == book.Id) = none →
       indexBookInSearch s book false = .error (.ftsMissing book.Id)) ∧
    (∀ (lib : Store) (book : Book) (bf : BookFile) (id : Int) (p : Bool),
       book.Files = [bf] →
       lib.files.find? (fun f => f.hash == bf.Hash) = none →
       getBookIdByTitleAndAuthors lib book.Title book.Authors = some id →
       lib.books_fts.find? (fun d => d.docid == id) = none →
       ImportBook lib book p = .error (.ftsMissing id) ∧
       importResultStore lib book p = lib) := by
  constructor
  · intro s book bf hf hmiss
    exact indexBookInSearch_missing_doc s book bf hf hmiss
  · intro lib book bf id p hf hnodup hres hnofts
    have hcore : importCore lib book = .error (.ftsMissing id) := by
      unfold importCore
      rw [hf]
      simp only []
      rw [hnodup, hres]
      simp only []
      refine indexBookInSearch_missing_doc _ _ bf rfl ?_
      rw [books_fts_foldl_insertTag]
      exact hnofts
    have h1 : ImportBook lib book p = .error (.ftsMissing id) := by
      unfold ImportBook
      rw [hcore]
    refine ⟨h1, ?_⟩
    unfold importResultStore
    rw [h1]

/-- Witness for C5: an entry present in the catalog with no search document. -/
theorem index_maintenance_error_propagation_witness :
    indexBookInSearch wStoreNoFts wBookGhost false
      = .error (.ftsMissing wBookGhost.Id) ∧
    (ImportBook wStoreNoFts wBookGhost true = .error (.ftsMissing 1) ∧
     importResultStore wStoreNoFts wBookGhost true = wStoreNoFts) :=
  ⟨index_maintenance_error_propagation.1 wStoreNoFts wBookGhost wFile2 rfl
     (by decide),
   index_maintenance_error_propagation.2 wStoreNoFts wBookGhost wFile2 1 true
     rfl (by decide) (by decide) (by decide)⟩

/-- The probe loop of `GetUniqueName` returns the first free candidate at or
after its current position, provided some free candidate lies within fuel. -/
theorem uniqueNameGo_first_free (ex : String → Bool) (f : String) :
    ∀ (fuel n : Nat), (∃ j, j ≤ fuel ∧ ex (cand f (n + j)) = false) →
      ∃ m, n ≤ m ∧
        uniqueNameGo ex f (pathExt f) fuel (n + 1) (cand f n) = cand f m ∧
        ex (cand f m) = false ∧
        ∀ k, n ≤ k → k < m → ex (cand f k) = true := by
  intro fuel
  induction fuel with
  | zero =>
    intro n h
    rcases h with ⟨j, hj0, hfree⟩
    have hj : j = 0 := Nat.le_zero.mp hj0
    subst hj
    rw [Nat.add_zero] at hfree
    refine ⟨n, Nat.le_refl n, rfl, hfree, ?_⟩
    intro k hk1 hk2
    omega
  | succ fuel ih =>
    intro n h
    cases hex : ex (cand f n) with
    | false =>
      refine ⟨n, Nat.le_refl n, ?_, hex, ?_⟩
      · unfold uniqueNameGo
        rw [hex]
        rfl
      · intro k hk1 hk2
        omega
    | true =>
      have hstep : uniqueNameGo ex f (pathExt f) (fuel + 1) (n + 1) (cand f n)
          = uniqueNameGo ex f (pathExt f) fuel (n + 1 + 1) (cand f (n + 1)) := by
        conv_lhs => unfold uniqueNameGo
        rw [hex]
        rfl
      rcases h with ⟨j, hj, hfree⟩
      have hj0 : j ≠ 0 := by
        intro h0
        subst h0
        rw [Nat.add_zero] at hfree
        rw [hex] at hfree
        cases hfree
      obtain ⟨j2, rfl⟩ := Nat.exists_eq_succ_of_ne_zero hj0
      have h2 : ∃ j, j ≤ fuel ∧ ex (cand f ((n + 1) + j)) = false := by
        refine ⟨j2, by omega, ?_⟩
        have : (n + 1) + j2 = n + (j2 + 1) := by omega
        rw [this]
        exact hfree
      rcases ih (n + 1) h2 with ⟨m, hm1, hm2, hm3, hm4⟩
      refine ⟨m, by omega, ?_, hm3, ?_⟩
      · rw [hstep]
        exact hm2
      · intro k hk1 hk2
        by_cases hkn : k = n
        · subst hkn
          exact hex
        · exact hm4 k (by omega) hk2

/-- C9: `GetUniqueName` returns the candidate path itself when no file exists
there, and otherwise the first name in the probed sequence `f`, `f (1)`,
`f (2)`, ... (numeric disambiguator before the extension) at which no file
exists — given fuel covering at least one free candidate. -/
theorem getUniqueName_first_free (ex : String → Bool) (fuel : Nat) (f : String)
    (h : ∃ j, j ≤ fuel ∧ ex (cand f j) = false) :
    ∃ m, GetUniqueName ex fuel f = cand f m ∧ ex (cand f m) = false ∧
      (∀ k, k < m → ex (cand f k) = true) ∧
      (ex f = false → GetUniqueName ex fuel f = f) := by
  have h0 : ∃ j, j ≤ fuel ∧ ex (cand f (0 + j)) = false := by
    rcases h with ⟨j, hj, hfree⟩
    refine ⟨j, hj, ?_⟩
    rw [Nat.zero_add]
    exact hfree
  rcases uniqueNameGo_first_free ex f fuel 0 h0 with ⟨m, _, hm2, hm3, hm4⟩
  have hres : GetUniqueName ex fuel f = cand f m := hm2
  refine ⟨m, hres, hm3, fun k hk => hm4 k (Nat.zero_le k) hk, ?_⟩
  intro hexf
  by_cases hm0 : m = 0
  · rw [hm0] at hres
    exact hres
  · exfalso
    have hc := hm4 0 (Nat.zero_le 0) (Nat.pos_of_ne_zero hm0)
    have hc0 : cand f 0 = f := rfl
    rw [hc0, hexf] at hc
    cases hc

/-- The filesystem of the C9 example: `book.epub` and `book (1).epub` exist. -/
def wFs2 : String → Bool := fun p => p == "book.epub" || p == "book (1).epub"

/-- Witness for C9: with `book.epub` and `book (1).epub` present,
`GetUniqueName` returns `book (2).epub`, the first free candidate. -/
theorem getUniqueName_first_free_witness :
    GetUniqueName wFs2 3 "book.epub" = "book (2).epub" ∧
    ∃ m, GetUniqueName wFs2 3 "book.epub" = cand "book.epub" m ∧
      wFs2 (cand "book.epub" m) = false ∧
      (∀ k, k < m → wFs2 (cand "book.epub" k) = true) ∧
      (wFs2 "book.epub" = false → GetUniqueName wFs2 3 "book.epub" = "book.epub") :=
  ⟨by decide,
   getUniqueName_first_free wFs2 3 "book.epub" ⟨2, by decide, by decide⟩⟩

/-- A nodup list of keys drawn from `ids` is no longer than `ids`. -/
theorem length_le_of_nodup_subset (l ids : List Int) (hN : l.Nodup)
    (hsub : ∀ x ∈ l, x ∈ ids) : l.length ≤ ids.length := by
  have h1 : l.toFinset.card = l.length := List.toFinset_card_of_nodup hN
  have h2 : l.toFinset ⊆ ids.toFinset := by
    intro x hx
    rw [List.mem_toFinset] at hx ⊢
    exact hsub x hx
  calc l.length = l.toFinset.card := h1.symm
    _ ≤ ids.toFinset.card := Finset.card_le_card h2
    _ ≤ ids.length := List.toFinset_card_le ids

/-- With distinct book rowids, an `IN (ids)` fetch returns at most
`ids.length` book rows. -/
theorem length_filter_books_le (s : Store) (hN : (s.books.map (fun b => b.id)).Nodup)
    (ids : List Int) :
    (s.books.filter (fun b => b.id ∈ ids)).length ≤ ids.length := by
  have hsl : List.Sublist
      ((s.books.filter (fun b => decide (b.id ∈ ids))).map (fun b => b.id))
      (s.books.map (fun b => b.id)) :=
    List.Sublist.map _ (List.filter_sublist _)
  have hN' : ((s.books.filter (fun b => decide (b.id ∈ ids))).map
      (fun b => b.id)).Nodup := List.Nodup.sublist hsl hN
  have hsub : ∀ x ∈ (s.books.filter (fun b => decide (b.id ∈ ids))).map
      (fun b => b.id), x ∈ ids := by
    intro x hx
    rcases List.mem_map.mp hx with ⟨b, hb, hbx⟩
    have := List.mem_filter.mp hb
    rw [← hbx]
    exact of_decide_eq_true this.2
  have := length_le_of_nodup_subset _ ids hN' hsub
  rw [List.length_map] at this
  exact this

/-- Hydration returns at most one entry per fetched identifier. -/
theorem length_GetBooksById_le (s : Store) (hWF : s.WF) (ids : List Int) :
    (GetBooksById s ids).length ≤ ids.length := by
  unfold GetBooksById
  cases hi : ids.isEmpty with
  | true => simp
  | false =>
    simp only [Bool.false_eq_true, if_false, List.length_map]
    exact length_filter_books_le s hWF.booksNodup ids

/-- C3: With `limit > 0`, `SearchPaged` fetches at most
`limit + moreResultsCap` matching identifiers starting at `offset`, returns
at most `limit` hydrated entries, and reports `moreResults` equal to the
number of fetched identifiers beyond `limit` (hence at most the cap); with
`limit == 0` it hydrates all matches. -/
theorem searchPaged_overfetch_spec (s : Store) (q : FtsRow → Bool)
    (offset limit cap : Nat) (hWF : s.WF) (hl : 0 < limit) :
    (((ftsMatchIds s q).drop offset).take (limit + cap)).length ≤ limit + cap ∧
    (SearchPaged s q offset limit cap).2
      = (((ftsMatchIds s q).drop offset).take (limit + cap)).length - limit ∧
    (SearchPaged s q offset limit cap).2 ≤ cap ∧
    (SearchPaged s q offset limit cap).1.length ≤ limit ∧
    ∀ off cap2, (SearchPaged s q off 0 cap2).1
      = GetBooksById s (ftsMatchIds s q) := by
  have hlim : (limit == 0) = false := by
    simp
    omega
  have hlen : (((ftsMatchIds s q).drop offset).take (limit + cap)).length
      ≤ limit + cap := List.length_take_le _ _
  have heq : SearchPaged s q offset limit cap =
      if limit > 0 ∧ (((ftsMatchIds s q).drop offset).take (limit + cap)).length
          > limit then
        (GetBooksById s ((((ftsMatchIds s q).drop offset).take
           (limit + cap)).take limit),
         (((ftsMatchIds s q).drop offset).take (limit + cap)).length - limit)
      else
        (GetBooksById s (((ftsMatchIds s q).drop offset).take (limit + cap)), 0) := by
    unfold SearchPaged
    rw [hlim]
    rfl
  refine ⟨hlen, ?_, ?_, ?_, ?_⟩
  · rw [heq]
    by_cases hc : limit > 0 ∧
        (((ftsMatchIds s q).drop offset).take (limit + cap)).length > limit
    · rw [if_pos hc]
    · rw [if_neg hc]
      have : (((ftsMatchIds s q).drop offset).take (limit + cap)).length
          ≤ limit := by
        rcases Nat.lt_or_ge limit
          ((((ftsMatchIds s q).drop offset).take (limit + cap)).length) with h | h
        · exact absurd ⟨hl, h⟩ hc
        · exact h
      omega
  · rw [heq]
    by_cases hc : limit > 0 ∧
        (((ftsMatchIds s q).drop offset).take (limit + cap)).length > limit
    · rw [if_pos hc]
      simp only []
      omega
    · rw [if_neg hc]
      simp only []
      omega
  · rw [heq]
    by_cases hc : limit > 0 ∧
        (((ftsMatchIds s q).drop offset).take (limit + cap)).length > limit
    · rw [if_pos hc]
      simp only []
      calc (GetBooksById s ((((ftsMatchIds s q).drop offset).take
              (limit + cap)).take limit)).length
          ≤ ((((ftsMatchIds s q).drop offset).take (limit + cap)).take
              limit).length := length_GetBooksById_le s hWF _
        _ ≤ limit := List.length_take_le _ _
    · rw [if_neg hc]
      simp only []
      have h2 : (((ftsMatchIds s q).drop offset).take (limit + cap)).length
          ≤ limit := by
        rcases Nat.lt_or_ge limit
          ((((ftsMatchIds s q).drop offset).take (limit + cap)).length) with h | h
        · exact absurd ⟨hl, h⟩ hc
        · exact h
      calc (GetBooksById s (((ftsMatchIds s q).drop offset).take
              (limit + cap))).length
          ≤ (((ftsMatchIds s q).drop offset).take (limit + cap)).length :=
            length_GetBooksById_le s hWF _
        _ ≤ limit := h2
  · intro off cap2
    unfold SearchPaged
    simp

/-- The store of the C3 example: five entries, all matching. -/
def wSearchStore : Store :=
  { Store.empty with
    books := [⟨1, "", "T1"⟩, ⟨2, "", "T2"⟩, ⟨3, "", "T3"⟩, ⟨4, "", "T4"⟩,
      ⟨5, "", "T5"⟩]
    books_fts := [⟨1, "a", "", "T1", "e", "", "", ""⟩,
      ⟨2, "a", "", "T2", "e", "", "", ""⟩, ⟨3, "a", "", "T3", "e", "", "", ""⟩,
      ⟨4, "a", "", "T4", "e", "", "", ""⟩, ⟨5, "a", "", "T5", "e", "", "", ""⟩]
    nextBookId := 6 }

/-- The match predicate of an unscoped query all five documents satisfy. -/
def qAll : FtsRow → Bool := fun _ => true

/-- Witness for C3: against 5 matches, `limit=2, cap=10` returns 2 entries
and `moreResults=3`; `cap=1` reports `moreResults=1`. -/
theorem searchPaged_overfetch_spec_witness :
    (SearchPaged wSearchStore qAll 0 2 10).1.length = 2 ∧
    (SearchPaged wSearchStore qAll 0 2 10).2 = 3 ∧
    (SearchPaged wSearchStore qAll 0 2 1).2 = 1 ∧
    ((((ftsMatchIds wSearchStore qAll).drop 0).take (2 + 10)).length ≤ 2 + 10 ∧
     (SearchPaged wSearchStore qAll 0 2 10).2
       = (((ftsMatchIds wSearchStore qAll).drop 0).take (2 + 10)).length - 2 ∧
     (SearchPaged wSearchStore qAll 0 2 10).2 ≤ 10 ∧
     (SearchPaged wSearchStore qAll 0 2 10).1.length ≤ 2 ∧
     ∀ off cap2, (SearchPaged wSearchStore qAll off 0 cap2).1
       = GetBooksById wSearchStore (ftsMatchIds wSearchStore qAll)) :=
  ⟨by decide, by decide, by decide,
   searchPaged_overfetch_spec wSearchStore qAll 0 2 10
     ⟨by decide, by decide, by decide⟩ (by decide)⟩

/-- Map lookup into the per-book file map: the files whose `book_id` is `k`,
in file-table order. -/
theorem lookupG_getFilesByBookIds (s : Store) (ids : List Int) (k : Int)
    (hk : k ∈ ids) :
    (lookupG (getFilesByBookIds s ids) k).getD []
      = getFilesById s ((s.files.filter (fun fr => fr.book_id == k)).map
          (fun fr => fr.id)) := by
  unfold getFilesByBookIds
  rw [lookupG_map_values, lookupG_groupAppend]
  have hfm : ∀ (l : List FileRow), l.map (fun f => (f.book_id, f.id))
      = l.filterMap (fun f => some (f.book_id, f.id)) := by
    intro l
    induction l with
    | nil => rfl
    | cons a t ih => simp [List.filterMap_cons, ih]
  have hpairs : ((s.files.filter (fun f => f.book_id ∈ ids)).map
        (fun f => (f.book_id, f.id))).filter (fun p => p.1 == k)
      = (s.files.filter (fun fr => fr.book_id == k)).map
          (fun fr => (fr.book_id, fr.id)) := by
    rw [hfm, hfm]
    exact filter_key_filterMap s.files (fun f => f.book_id)
      (fun f => some (f.book_id, f.id)) ids k
      (by intro b p hp; cases hp; rfl) hk
  rw [hpairs]
  by_cases he : ((s.files.filter (fun fr => fr.book_id == k)).map
      (fun fr => (fr.book_id, fr.id))).isEmpty
  · rw [if_pos he]
    have hfe : s.files.filter (fun fr => fr.book_id == k) = [] := by
      have h0 := List.isEmpty_iff.mp he
      cases hc : s.files.filter (fun fr => fr.book_id == k) with
      | nil => rfl
      | cons a t =>
        rw [hc] at h0
        cases h0
    rw [hfe]
    rfl
  · rw [if_neg he]
    rw [List.map_map]
    rfl

/-- C7: Every hydrated entry lists its authors, and every hydrated file its
tags, in link-table insertion order (by link row id) — the recorded link
sequences, not an alphabetical ordering. -/
theorem hydration_orders_by_link_insertion (s : Store) (hWF : s.WF)
    (ids : List Int) (bk : Book) (hbk : bk ∈ GetBooksById s ids) :
    bk.Authors = entryAuthors s bk.Id ∧
    ∀ bf ∈ bk.Files, bf.Tags = fileTags s bf.Id := by
  unfold GetBooksById at hbk
  cases hi : ids.isEmpty with
  | true =>
    rw [hi] at hbk
    simp at hbk
  | false =>
    rw [hi] at hbk
    simp only [Bool.false_eq_true, if_false] at hbk
    rcases List.mem_map.mp hbk with ⟨bk0, hbk0, hbk0eq⟩
    rcases List.mem_map.mp hbk0 with ⟨b, hbfil, hbeq⟩
    have hbid : b.id ∈ ids := by
      have := (List.mem_filter.mp hbfil).2
      exact of_decide_eq_true this
    subst hbk0eq
    subst hbeq
    constructor
    · show (lookupG (getAuthorsByBookIds s ids) b.id).getD []
        = entryAuthors s b.id
      exact lookupG_getAuthorsByBookIds s hWF ids b.id hbid
    · intro bf hbf
      have hbf2 : bf ∈ (lookupG (getFilesByBookIds s ids) b.id).getD [] := hbf
      rw [lookupG_getFilesByBookIds s ids b.id hbid] at hbf2
      unfold getFilesById at hbf2
      cases hfi : ((s.files.filter (fun fr => fr.book_id == b.id)).map
          (fun fr => fr.id)).isEmpty with
      | true =>
        rw [hfi] at hbf2
        simp at hbf2
      | false =>
        rw [hfi] at hbf2
        simp only [Bool.false_eq_true, if_false] at hbf2
        rcases List.mem_map.mp hbf2 with ⟨f, hffil, hfeq⟩
        have hfid : f.id ∈ (s.files.filter (fun fr => fr.book_id == b.id)).map
            (fun fr => fr.id) := by
          have := (List.mem_filter.mp hffil).2
          exact of_decide_eq_true this
        subst hfeq
        show (lookupG (getTagsByFileIds s ((s.files.filter
            (fun fr => fr.book_id == b.id)).map (fun fr => fr.id))) f.id).getD []
          = fileTags s f.id
        exact lookupG_getTagsByFileIds s hWF _ f.id hfid

/-- A store whose links were inserted in non-alphabetical order. -/
def wHydrStore : Store :=
  { books := [⟨1, "", "T"⟩]
    files := [⟨1, 1, "epub", "o", "c", 5, 0, "h", "r", "s"⟩]
    authors := [⟨1, "Zed"⟩, ⟨2, "Ann"⟩]
    books_authors := [⟨1, 1, 1⟩, ⟨2, 1, 2⟩]
    tags := [⟨1, "zeta"⟩, ⟨2, "alpha"⟩]
    files_tags := [⟨1, 1, 1⟩, ⟨2, 1, 2⟩]
    books_fts := []
    nextBookId := 2
    nextFileId := 2
    nextAuthorId := 3
    nextBookAuthorId := 3
    nextTagId := 3
    nextFileTagId := 3 }

/-- The hydration of entry 1 of `wHydrStore`. -/
def wHydrBook : Book :=
  ⟨1, ["Zed", "Ann"], "", "T",
    [⟨1, "epub", "o", "c", 5, 0, "h", "r", "s", ["zeta", "alpha"]⟩]⟩

/-- Witness for C7: the hydrated entry keeps the link order `Zed, Ann` and the
file keeps `zeta, alpha` — insertion order, not alphabetical. -/
theorem hydration_orders_by_link_insertion_witness :
    (wHydrBook.Authors = entryAuthors wHydrStore wHydrBook.Id ∧
     ∀ bf ∈ wHydrBook.Files, bf.Tags = fileTags wHydrStore bf.Id) ∧
    wHydrBook ∈ GetBooksById wHydrStore [1] ∧
    wHydrBook.Authors = ["Zed", "Ann"] ∧
    (∀ bf ∈ wHydrBook.Files, bf.Tags = ["zeta", "alpha"]) :=
  ⟨hydration_orders_by_link_insertion wHydrStore
     ⟨by decide, by decide, by decide⟩ [1] wHydrBook (by decide),
   by decide, by decide, by decide⟩

/-- Every entry of the author map fetched for `ids` belongs to `ids`, holds
exactly that book's recorded author sequence, and is nonempty. -/
theorem mem_getAuthorsByBookIds (s : Store) (hWF : s.WF) (ids : List Int)
    (p : Int × List String) (hp : p ∈ getAuthorsByBookIds s ids) :
    p.1 ∈ ids ∧ entryAuthors s p.1 = p.2 ∧ p.2 ≠ [] := by
  rw [getAuthorsByBookIds_eq s hWF] at hp
  rcases mem_groupAppend_eq _ p hp with ⟨hval, hne⟩
  have hfne : (((s.books_authors.filter (fun ba => ba.book_id ∈ ids)).filterMap
      (authorJoinRow s)).filter (fun q => q.1 == p.1)) ≠ [] := by
    intro hc
    rw [hc] at hval
    exact hne hval
  cases hfc : (((s.books_authors.filter (fun ba => ba.book_id ∈ ids)).filterMap
      (authorJoinRow s)).filter (fun q => q.1 == p.1)) with
  | nil => exact absurd hfc hfne
  | cons q t =>
    have hqmem : q ∈ ((s.books_authors.filter
        (fun ba => ba.book_id ∈ ids)).filterMap (authorJoinRow s)).filter
        (fun q => q.1 == p.1) := by
      rw [hfc]
      exact List.mem_cons_self q t
    have hqj : q ∈ (s.books_authors.filter
        (fun ba => ba.book_id ∈ ids)).filterMap (authorJoinRow s) :=
      (List.mem_filter.mp hqmem).1
    have hq1 : q.1 = p.1 := by
      have := (List.mem_filter.mp hqmem).2
      simpa using this
    have hp1 : p.1 ∈ ids := by
      rw [← hq1]
      exact fst_mem_ids_of_mem_join s.books_authors (fun ba => ba.book_id)
        (authorJoinRow s) ids q (authorJoinRow_key s) hqj
    refine ⟨hp1, ?_, hne⟩
    rw [hval, filter_key_filterMap s.books_authors (fun ba => ba.book_id)
      (authorJoinRow s) ids p.1 (authorJoinRow_key s) hp1,
      map_snd_filterMap_authorJoin]
    rfl

/-- A store holding one entry titled "T" with no linked authors. -/
def cexStore : Store :=
  { Store.empty with books := [⟨1, "", "T"⟩], nextBookId := 2 }

/-- Counterexample for C2 as stated: in a well-formed store, entry 1 has an
exactly matching title and a recorded author sequence equal (element for
element) to the requested empty list, yet resolution reports no match. -/
theorem identity_resolution_empty_authors_cex :
    cexStore.books = [⟨1, "", "T"⟩] ∧
    entryAuthors cexStore 1 = ([] : List String) ∧
    cexStore.WF ∧
    getBookIdByTitleAndAuthors cexStore "T" [] = none :=
  ⟨rfl, by decide, ⟨by decide, by decide, by decide⟩, by decide⟩

/-- C2 (amended): identity resolution returns `found` with an existing
entry's identifier iff some entry with an exactly (case-sensitively) matching
title has a *nonempty* author sequence equal element-for-element and in the
same order — an entry with no recorded authors is never matched. Hence the
same title under `[A,B]` and then `[B,A]` yields two distinct entries, while
re-importing the identical ordered (nonempty) list attaches the new file to
the existing entry. -/
theorem identity_resolution_spec (s : Store) (hWF : s.WF) (title : String)
    (authors : List String) :
    (∀ id, getBookIdByTitleAndAuthors s title authors = some id →
       (∃ b ∈ s.books, b.id = id ∧ b.title = title) ∧
       entryAuthors s id = authors ∧ authors ≠ []) ∧
    ((∃ b ∈ s.books, b.title = title ∧ entryAuthors s b.id = authors) →
       authors ≠ [] →
       ∃ id, getBookIdByTitleAndAuthors s title authors = some id ∧
         entryAuthors s id = authors) ∧
    ((importResultStore (importResultStore Store.empty wBook1 true) wBook2
        true).books.length = 2 ∧
     (importResultStore (importResultStore Store.empty wBook1 true) wBook3
        true).books.length = 1 ∧
     (importResultStore (importResultStore Store.empty wBook1 true) wBook3
        true).files.length = 2) := by
  have hfwd : ∀ id, getBookIdByTitleAndAuthors s title authors = some id →
      (∃ b ∈ s.books, b.id = id ∧ b.title = title) ∧
      entryAuthors s id = authors ∧ authors ≠ [] := by
    intro id hid
    have hid2 : ((getAuthorsByBookIds s ((s.books.filter
        (fun b => b.title == title)).map (fun b => b.id))).find?
        (fun p => p.2 == authors)).map (fun p => p.1) = some id := hid
    cases hfind : (getAuthorsByBookIds s ((s.books.filter
        (fun b => b.title == title)).map (fun b => b.id))).find?
        (fun p => p.2 == authors) with
    | none =>
      rw [hfind] at hid2
      cases hid2
    | some p =>
      rw [hfind] at hid2
      have hpid : p.1 = id := by simpa using hid2
      have hpmem := List.mem_of_find?_eq_some hfind
      have hpauth : p.2 = authors := by
        have := List.find?_some hfind
        simpa using this
      rcases mem_getAuthorsByBookIds s hWF _ p hpmem with ⟨hin, hea, hne⟩
      rcases List.mem_map.mp hin with ⟨b, hbf, hbid⟩
      rcases List.mem_filter.mp hbf with ⟨hbmem, hbt⟩
      refine ⟨⟨b, hbmem, ?_, by simpa using hbt⟩, ?_, ?_⟩
      · rw [hbid, hpid]
      · rw [← hpid, hea, hpauth]
      · rw [← hpauth]
        exact hne
  refine ⟨hfwd, ?_, by decide, by decide, by decide⟩
  rintro ⟨b, hbmem, hbt, hba⟩ hane
  have hbid : b.id ∈ (s.books.filter (fun b => b.title == title)).map
      (fun b => b.id) :=
    List.mem_map.mpr ⟨b, List.mem_filter.mpr ⟨hbmem, by simp [hbt]⟩, rfl⟩
  have hlk := lookupG_getAuthorsByBookIds s hWF _ b.id hbid
  rw [hba] at hlk
  cases hsome : lookupG (getAuthorsByBookIds s ((s.books.filter
      (fun b => b.title == title)).map (fun b => b.id))) b.id with
  | none =>
    rw [hsome] at hlk
    simp at hlk
    exact absurd hlk hane
  | some vs =>
    rw [hsome] at hlk
    simp at hlk
    have hmem2 := mem_of_lookupG _ _ _ hsome
    have hfs : ((getAuthorsByBookIds s ((s.books.filter
        (fun b => b.title == title)).map (fun b => b.id))).find?
        (fun p => p.2 == authors)).isSome := by
      rw [List.find?_isSome]
      exact ⟨(b.id, vs), hmem2, by simp [hlk]⟩
    cases hfind : (getAuthorsByBookIds s ((s.books.filter
        (fun b => b.title == title)).map (fun b => b.id))).find?
        (fun p => p.2 == authors) with
    | none =>
      rw [hfind] at hfs
      cases hfs
    | some p =>
      have hres : getBookIdByTitleAndAuthors s title authors = some p.1 := by
        show ((getAuthorsByBookIds s ((s.books.filter
            (fun b => b.title == title)).map (fun b => b.id))).find?
            (fun p => p.2 == authors)).map (fun p => p.1) = some p.1
        rw [hfind]
        rfl
      exact ⟨p.1, hres, (hfwd p.1 hres).2.1⟩

/-- Witness for C2: in the library holding `wBook1`, the same title with the
identical ordered author list resolves to the existing entry. -/
theorem identity_resolution_spec_witness :
    ∃ id, getBookIdByTitleAndAuthors wStore1 "Twin Suns" ["Ann", "Zed"]
        = some id ∧
      entryAuthors wStore1 id = ["Ann", "Zed"] :=
  (identity_resolution_spec wStore1 ⟨by decide, by decide, by decide⟩
      "Twin Suns" ["Ann", "Zed"]).2.1
    ⟨⟨1, "", "Twin Suns"⟩, by decide, by decide, by decide⟩ (by decide)

end Books
